import Mathlib

/-!
Verification of the claude-journal MCP server (`src/claude_journal/server.py`)
and its journal / index helper modules, against the natural-language spec.

Text is embedded as `List Char`.  Functions present in `server.py` are
translated directly from that file; helper functions whose module is not in
the source tree (`journal.py`, `index.py`, `git_ops.py`) are modelled from the
spec (their doc comments say so) and pinned by the repository's tests.
-/

namespace ClaudeJournal

/-- Coercion from a string literal to the character-list representation of text. -/
def str (s : String) : List Char := s.data

/-- Whitespace characters stripped by Python's `str.strip()` (ASCII subset). -/
def isPySpace (c : Char) : Bool :=
  c = ' ' || c = '\t' || c = '\n' || c = '\r' || c = '\x0b' || c = '\x0c'

/-- Python `str.strip()`: drop leading and trailing whitespace. -/
def pyStrip (s : List Char) : List Char :=
  ((s.dropWhile isPySpace).reverse.dropWhile isPySpace).reverse

/-- Scan for an occurrence of `q` as a contiguous subsequence of `s`
(the semantics of Python's `in` / `re.search` for a literal pattern). -/
def containsSeq (q : List Char) : List Char → Bool
  | [] => q.isEmpty
  | c :: rest => q.isPrefixOf (c :: rest) || containsSeq q rest

/-- Case folding of a text, modelling `re.IGNORECASE` comparison. -/
def lowerStr (s : List Char) : List Char := s.map Char.toLower

/-- The record delimiter of the journal log format: the argument of
`content.split("\n---\n")` in `handle_journal_search`. -/
def delim : List Char := str ("\n---\n")

/-- One step of Python's `str.split(sep)` for `sep = "\n---\n"`: the text before
the first occurrence of the delimiter, and (when the delimiter occurs) the
remaining text after it. -/
def breakDelim : List Char → List Char × Option (List Char)
  | [] => ([], none)
  | c :: rest =>
    if delim.isPrefixOf (c :: rest) then ([], some ((c :: rest).drop 5))
    else (c :: (breakDelim rest).1, (breakDelim rest).2)

/-- Fuel-indexed iteration of `breakDelim`; fuel `s.length` always suffices
because each delimiter occurrence consumes at least one character. -/
def splitDelimAux : Nat → List Char → List (List Char)
  | 0, s => [s]
  | n + 1, s =>
    match breakDelim s with
    | (pre, none) => [pre]
    | (pre, some rest) => pre :: splitDelimAux n rest

/-- Python's `content.split("\n---\n")` from `handle_journal_search`. -/
def splitDelim (s : List Char) : List (List Char) := splitDelimAux s.length s

/-! ## Entry codec -/

/-- ASCII word character, modelling `\w` of the header pattern
`## \[.*?\] (\w+)` for the ASCII entry types of this program. -/
def isWordChar (c : Char) : Bool := c.isAlphanum || c == '_'

/-- Modelled from the spec (journal.py is not in the source tree):
`format_entry(content, type, timestamp)` produces the fixed record format
`## [<timestamp>] <type>\n\n<content>\n\n---\n` with no escaping
(spec section 4.1; pinned by test_format_entry_creates_correct_format). -/
def format_entry (content entry_type ts : List Char) : List Char :=
  str ("## [") ++ ts ++ str ("] ") ++ entry_type ++ str ("\n\n") ++ content
    ++ str ("\n\n---\n")

/-- Modelled from the spec (journal.py is not in the source tree):
`append_entry(path, content, type)` encodes a new entry and appends it to the
file, creating the file if absent; it is the only mutator of the log.  The
file is modelled by its content, an absent file by the empty text. -/
def append_entry (journal content entry_type ts : List Char) : List Char :=
  journal ++ format_entry content entry_type ts

/-- Attempt to complete the header pattern at a position right after a
candidate closing bracket: consumes `" "` followed by the greedy word group
`(\w+)`, returning the word and the remaining text. -/
def tryFinish : List Char → Option (List Char × List Char)
  | ' ' :: c :: r =>
    if isWordChar c then some ((c :: r).takeWhile isWordChar, (c :: r).dropWhile isWordChar)
    else none
  | _ => none

/-- Scan for `.*?\] (\w+)` with the non-greedy backtracking semantics of the
Python pattern (`.` does not cross a newline; the shortest extension whose
closing bracket is followed by a space and a word character wins).  Returns
the text matched by `.*?`, the word group and the remaining text. -/
def scanHeaderTail : List Char → Option (List Char × List Char × List Char)
  | [] => none
  | c :: r =>
    if c = '\n' then none
    else
      match (if c = ']' then tryFinish r else none) with
      | some (w, rest) => some ([], w, rest)
      | none => (scanHeaderTail r).map (fun p => (c :: p.1, p.2.1, p.2.2))

/-- Match the header pattern `## \[(.*?)\] (\w+)` anchored at the start of the
text, returning the timestamp group, the type group and the remaining text. -/
def parseHeader : List Char → Option (List Char × List Char × List Char)
  | '#' :: '#' :: ' ' :: '[' :: rest => scanHeaderTail rest
  | _ => none

/-- The leftmost match of the header pattern anywhere in the text (the
semantics of `re.search(r"## \[.*?\] (\w+)", entry)` in
`handle_journal_search`), returning the type group. -/
def extractTypeToken : List Char → Option (List Char)
  | [] => none
  | c :: r =>
    match parseHeader (c :: r) with
    | some (_, w, _) => some w
    | none => extractTypeToken r

/-- Modelled from the spec (index.py is not in the source tree):
`parse_entries_from_markdown` decodes one chunk: strip it, skip it when empty
or when it does not start with the header pattern, otherwise return
`(timestamp, type, content)` where the content is the stripped text after the
header (spec sections 4.1 and 3: record format `## [<ts>] <type>\n\n<content>`). -/
def parseChunk (chunk : List Char) : Option (List Char × List Char × List Char) :=
  match parseHeader (pyStrip chunk) with
  | some (ts, ty, rest) => some (ts, ty, pyStrip rest)
  | none => none

/-- Modelled from the spec (index.py is not in the source tree):
`parse_entries_from_markdown(markdown)` splits on the record delimiter and
decodes each chunk, skipping malformed chunks instead of failing. -/
def parse_entries_from_markdown (s : List Char) :
    List (List Char × List Char × List Char) :=
  (splitDelim s).filterMap parseChunk

/-! ## Search handler (`handle_journal_search` in server.py) -/

/-- The text match of `handle_journal_search`:
`re.compile(query, re.IGNORECASE).search(entry)`, modelled for
metacharacter-free query patterns, for which a regex search is exactly a
case-insensitive substring scan. -/
def patternSearch (q e : List Char) : Bool :=
  containsSeq (lowerStr q) (lowerStr e)

/-- The optional type filter of `handle_journal_search`: with no filter every
entry passes; with a filter the header's type token must exist and equal the
requested type exactly. -/
def typeFilterPasses (tyF : Option (List Char)) (e : List Char) : Bool :=
  match tyF with
  | none => true
  | some t =>
    match extractTypeToken e with
    | some w => w == t
    | none => false

/-- The per-entry test of the search loop: text match and type filter. -/
def entryPasses (q : List Char) (tyF : Option (List Char)) (e : List Char) : Bool :=
  patternSearch q e && typeFilterPasses tyF e

/-- The matching stripped entries contributed by one journal's content
(the body of the `for journal_path in journals_to_search` loop): an empty
content is skipped, the content is split on the delimiter, blank chunks are
skipped, and each remaining chunk passing the query and type tests
contributes its stripped text. -/
def journalResults (q : List Char) (tyF : Option (List Char))
    (content : List Char) : List (List Char) :=
  if content.isEmpty then []
  else
    ((splitDelim content).filter
      (fun e => !(pyStrip e).isEmpty && entryPasses q tyF e)).map pyStrip

/-- All results collected over the searched journals, in order. -/
def searchResults (q : List Char) (tyF : Option (List Char))
    (contents : List (List Char)) : List (List Char) :=
  contents.flatMap (journalResults q tyF)

/-- Python `sep.join(parts)`. -/
def pyJoin (sep : List Char) : List (List Char) → List Char
  | [] => []
  | [x] => x
  | x :: y :: xs => x ++ sep ++ pyJoin sep (y :: xs)

/-- The reply text of `handle_journal_search` when no entry matches. -/
def noMatchMsg : List Char := str ("No matching journal entries found")

/-- The separator joining matched entries in the reply. -/
def sepJoin : List Char := str ("\n\n---\n\n")

/-- The reply text of `handle_journal_search`: the no-match message for an
empty result list, otherwise the results joined by the separator. -/
def searchOutput (q : List Char) (tyF : Option (List Char))
    (contents : List (List Char)) : List Char :=
  if (searchResults q tyF contents).isEmpty then noMatchMsg
  else pyJoin sepJoin (searchResults q tyF contents)

/-- The scope argument of JournalSearch. -/
inductive SScope
  | global
  | project
  | both
deriving DecidableEq

def scopeHasGlobal : SScope → Bool
  | SScope.global => true
  | SScope.both => true
  | SScope.project => false

def scopeHasProject : SScope → Bool
  | SScope.project => true
  | SScope.both => true
  | SScope.global => false

/-- One lowercase hexadecimal digit. -/
def hexDigit (n : Nat) : Char :=
  if n < 10 then Char.ofNat (48 + n) else Char.ofNat (87 + n)

/-- Modelled from the spec (journal.py is not in the source tree):
`generate_project_id()` draws a fresh 8-character lowercase-hex string from a
random source, modelled by the natural number `r`. -/
def generate_project_id (r : Nat) : List Char :=
  (List.range 8).map (fun i => hexDigit (r / 16 ^ i % 16))

/-- Modelled from the spec (journal.py is not in the source tree):
`get_or_create_project_id(cwd)` returns the id stored in the project identity
sidecar when it exists, and otherwise generates a fresh id and persists it. -/
def get_or_create_project_id (sidecar : Option (List Char)) (r : Nat) : List Char :=
  match sidecar with
  | some id => id
  | none => generate_project_id r

/-- The local state read and written by a JournalSearch call: the two journal
files (content, absent modelled as empty per `read_journal`), the project
identity sidecar, and the random source used if a fresh id is needed. -/
structure SearchEnv where
  globalJournal : List Char
  projectJournal : List Char
  sidecar : Option (List Char)
  freshId : Nat
deriving DecidableEq

/-- The observable outcome of a JournalSearch call: the state afterwards and
the reply text. -/
structure SearchOutcome where
  sidecar : Option (List Char)
  globalJournal : List Char
  projectJournal : List Char
  reply : List Char
deriving DecidableEq

/-- `handle_journal_search` from server.py: the pull outcome is an argument
because `git_pull(journals_dir)`'s return value is discarded by the handler;
then the journals to search are selected by scope (global first), resolving
the project id for project scope, and the reply is computed from the journal
contents. -/
def handle_journal_search (pullOutcome : Bool × List Char) (env : SearchEnv)
    (query : List Char) (scope : SScope) (tyF : Option (List Char)) : SearchOutcome :=
  let sidecar1 :=
    if scopeHasProject scope then some (get_or_create_project_id env.sidecar env.freshId)
    else env.sidecar
  let contents :=
    (if scopeHasGlobal scope then [env.globalJournal] else [])
      ++ (if scopeHasProject scope then [env.projectJournal] else [])
  ⟨sidecar1, env.globalJournal, env.projectJournal, searchOutput query tyF contents⟩

/-! ## Write handler (`handle_journal_write` in server.py) -/

/-- The steps a write may execute, for stating ordering claims.  The
`indexUpdate` constructor exists so that the spec's claimed step sequence can
be stated; the handler never emits it. -/
inductive WStep
  | pull
  | append
  | indexUpdate
  | commit
  | push
deriving DecidableEq

/-- Outcomes of the three git operations during a write, as seen by the
handler: `(ok, message)` pairs per git_ops' contract. -/
structure WriteEnv where
  pullOk : Bool
  pullMsg : List Char
  commitOk : Bool
  commitMsg : List Char
  pushOk : Bool
  pushMsg : List Char
deriving DecidableEq

/-- The observable outcome of a JournalWrite call: the attempted steps in
order, the journal file content afterwards, and the reply text. -/
structure WriteOutcome where
  steps : List WStep
  journal : List Char
  reply : List Char
deriving DecidableEq

/-- `handle_journal_write` from server.py: pull, and on pull failure return
the warning at once; otherwise append the entry, commit, and on commit
failure return the partial-success message; otherwise push, and on push
failure return the partial-success message; otherwise report success with the
journal path. -/
def handle_journal_write (env : WriteEnv)
    (journal0 content entry_type ts path : List Char) : WriteOutcome :=
  if env.pullOk = false then
    ⟨[WStep.pull], journal0, str ("Warning: ") ++ env.pullMsg⟩
  else
    let journal1 := append_entry journal0 content entry_type ts
    if env.commitOk = false then
      ⟨[WStep.pull, WStep.append, WStep.commit], journal1,
        str ("Entry written but commit failed: ") ++ env.commitMsg⟩
    else if env.pushOk = false then
      ⟨[WStep.pull, WStep.append, WStep.commit, WStep.push], journal1,
        str ("Entry written and committed, but push failed: ") ++ env.pushMsg⟩
    else
      ⟨[WStep.pull, WStep.append, WStep.commit, WStep.push], journal1,
        str ("Journal entry written to ") ++ path⟩

/-! ## Search index staleness -/

/-- Modelled from the spec (index.py is not in the source tree):
`is_index_stale(journal_path, index_path)` over a filesystem modelled by the
optional last-modified times of the two files (`none` = absent): an absent
index is stale; otherwise an absent journal is not stale; otherwise the index
is stale iff the journal's mtime strictly exceeds the index's (spec section
4.3; pinned by the four staleness tests of test_index.py). -/
def is_index_stale (journalMtime indexMtime : Option Nat) : Bool :=
  match indexMtime with
  | none => true
  | some im =>
    match journalMtime with
    | none => false
    | some jm => decide (im < jm)

/-! ## Validity of a codec input (spec section 4.1: no escaping is performed,
content containing the delimiter or conflicting with the header pattern
corrupts parsing and is outside the codec's contract) -/

/-- A valid timestamp string for the record format: printable on one line and
free of the closing bracket that ends the header's timestamp group. -/
def validTimestamp (ts : List Char) : Bool :=
  ts.all (fun c => !(c == ']') && !(c == '\n'))

/-- A valid entry type: a nonempty word, as required by the `(\w+)` group of
the header pattern (the five entry types of the schema all satisfy this). -/
def validType (ty : List Char) : Bool :=
  !ty.isEmpty && ty.all isWordChar

/-- The text is nonempty and does not start with whitespace. -/
def headNonSpace : List Char → Bool
  | [] => false
  | c :: _ => !isPySpace c

/-- A valid content: nonempty, stripped (no leading or trailing whitespace),
and the record delimiter does not occur in it even jointly with the newlines
the record format places around it. -/
def validContent (c : List Char) : Bool :=
  headNonSpace c && headNonSpace c.reverse
    && !containsSeq delim ('\n' :: (c ++ str ("\n")))

/-! ## Spec-side model of stemmed matching (for the refinement comparison of
the matching the spec describes with the matching the server performs) -/

def isAsciiVowel (c : Char) : Bool :=
  c = 'a' || c = 'e' || c = 'i' || c = 'o' || c = 'u'

/-- `suf` is a suffix of `w`. -/
def endsWithSeq (suf w : List Char) : Bool :=
  suf.reverse.isPrefixOf w.reverse

/-- Modelled from the spec: the spec's Search Index matches "with stemming (a
query term matches any entry containing a same-stem word — e.g. `implement`
matches `implementing`)"; the stemmer of the repository's index tests is the
porter stemmer.  This model applies the porter algorithm's first-step suffix
rules (ing / ed with a vowel left in the stem, plural s), which decide the
spec's examples. -/
def porterLikeStem (w : List Char) : List Char :=
  if endsWithSeq (str ("ing")) w && (w.take (w.length - 3)).any isAsciiVowel then
    w.take (w.length - 3)
  else if endsWithSeq (str ("ed")) w && (w.take (w.length - 2)).any isAsciiVowel then
    w.take (w.length - 2)
  else if endsWithSeq (str ("s")) w && !endsWithSeq (str ("ss")) w then
    w.take (w.length - 1)
  else w

/-- Accumulating split of a text into maximal alphanumeric words. -/
def wordsAux : List Char → List Char → List (List Char)
  | [], acc => if acc.isEmpty then [] else [acc.reverse]
  | c :: r, acc =>
    if c.isAlphanum then wordsAux r (c :: acc)
    else if acc.isEmpty then wordsAux r []
    else acc.reverse :: wordsAux r []

/-- The words of a text. -/
def wordsOf (s : List Char) : List (List Char) := wordsAux s []

/-- Modelled from the spec: the matching relation the spec claims for search —
the (single-term) query matches an entry containing a word with the same stem,
case-insensitively. -/
def specStemMatch (q e : List Char) : Bool :=
  (wordsOf (lowerStr e)).any (fun w => porterLikeStem w == porterLikeStem (lowerStr q))

/-- The header line of an encoded record, `## [<timestamp>] <type>`. -/
def headerLine (ts ty : List Char) : List Char :=
  str ("## [") ++ ts ++ str ("] ") ++ ty

/-- No occurrence of the record delimiter starts strictly inside `a` when the
delimiter is appended to it: the first delimiter occurrence of `a ++ delim`
is the final one. -/
def noEarly (a : List Char) : Prop :=
  ∀ i, i < a.length → ¬ delim.isPrefixOf ((a ++ delim).drop i) = true

/-! # Theorems -/

theorem splitDelimAux_nil (n : Nat) : splitDelimAux n [] = [[]] := by
  cases n <;> simp [splitDelimAux, breakDelim]

theorem breakDelim_some_length {s pre rest : List Char}
    (h : breakDelim s = (pre, some rest)) : rest.length < s.length := by
  induction s generalizing pre rest with
  | nil => simp [breakDelim] at h
  | cons c cs ih =>
    rw [breakDelim] at h
    split at h
    next hp =>
      injection h with h1 h2
      injection h2 with h2
      have hlen : 5 ≤ (c :: cs).length := by
        have := (List.isPrefixOf_iff_prefix.mp hp).length_le
        simpa [delim, str] using this
      have hdl : rest.length = (c :: cs).length - 5 := by
        rw [← h2]; simp
      omega
    next hp =>
      injection h with h1 h2
      have hb : breakDelim cs = ((breakDelim cs).1, some rest) := by
        rw [← h2]
      have := ih hb
      simp only [List.length_cons]
      omega

theorem containsSeq_iff_infix {q s : List Char} :
    containsSeq q s = true ↔ q <:+: s := by
  induction s with
  | nil =>
    simp [containsSeq, List.isEmpty_iff, List.infix_nil]
  | cons c rest ih =>
    rw [containsSeq, Bool.or_eq_true, List.infix_cons_iff, ih,
      List.isPrefixOf_iff_prefix]

theorem prefix_append_iff_left {p u v : List Char} (h : p.length ≤ u.length) :
    p <+: u ++ v ↔ p <+: u := by
  rw [List.prefix_iff_eq_take, List.prefix_iff_eq_take,
    List.take_append_of_le_length h]

theorem noEarly_tail {x : Char} {a : List Char} (h : noEarly (x :: a)) :
    noEarly a := by
  intro i hi hpre
  apply h (i + 1) (by simp; omega)
  rw [List.cons_append, List.drop_succ_cons]
  exact hpre

theorem breakDelim_cons_pos {c : Char} {rest : List Char}
    (h : delim.isPrefixOf (c :: rest) = true) :
    breakDelim (c :: rest) = ([], some ((c :: rest).drop 5)) := by
  rw [breakDelim, if_pos h]

theorem breakDelim_cons_neg {c : Char} {rest : List Char}
    (h : ¬ delim.isPrefixOf (c :: rest) = true) :
    breakDelim (c :: rest) = (c :: (breakDelim rest).1, (breakDelim rest).2) := by
  rw [breakDelim, if_neg h]

theorem breakDelim_append {a b : List Char} (h : noEarly a) :
    breakDelim (a ++ delim ++ b) = (a, some b) := by
  induction a with
  | nil =>
    show breakDelim ('\n' :: (str ("---\n") ++ b)) = ([], some b)
    have hpre : delim.isPrefixOf ('\n' :: (str ("---\n") ++ b)) = true := by
      have : delim <+: delim ++ b := List.prefix_append delim b
      exact List.isPrefixOf_iff_prefix.mpr this
    rw [breakDelim_cons_pos hpre]
    rfl
  | cons x a' ih =>
    have h0 := h 0 (by simp)
    rw [List.drop_zero] at h0
    have hneg : ¬ delim.isPrefixOf (((x :: a') ++ delim) ++ b) = true := by
      intro hc
      apply h0
      rw [List.isPrefixOf_iff_prefix] at hc ⊢
      refine (prefix_append_iff_left ?_).mp hc
      simp [delim, str]
    have hlist : (x :: a') ++ delim ++ b = x :: (a' ++ delim ++ b) := by simp
    rw [hlist] at hneg ⊢
    rw [breakDelim_cons_neg hneg, ih (noEarly_tail h)]

theorem splitDelim_append_delim {a : List Char} (h : noEarly a) :
    splitDelim (a ++ delim) = [a, []] := by
  have hb : breakDelim (a ++ delim) = (a, some []) := by
    have hx := breakDelim_append (b := []) h
    rw [List.append_nil] at hx
    exact hx
  have hlen : (a ++ delim).length = a.length + 4 + 1 := by
    simp [delim, str]
  rw [splitDelim, hlen, splitDelimAux, hb]
  simp [splitDelimAux_nil]

theorem headerLine_no_newline {ts ty : List Char} (hts : validTimestamp ts = true)
    (hty : validType ty = true) : ∀ x ∈ headerLine ts ty, ¬ x = '\n' := by
  intro x hx hxn
  subst hxn
  rw [headerLine] at hx
  simp only [List.mem_append] at hx
  rcases hx with ((h1 | h2) | h3) | h4
  · exact absurd h1 (by decide)
  · rw [validTimestamp, List.all_eq_true] at hts
    exact absurd (hts _ h2) (by decide)
  · exact absurd h3 (by decide)
  · rw [validType, Bool.and_eq_true, List.all_eq_true] at hty
    exact absurd (hty.2 _ h4) (by decide)

theorem no_delim_in_tail {c : List Char} (hc : validContent c = true) :
    ∀ j, j < ('\n' :: (c ++ ['\n'])).length →
      ¬ delim.isPrefixOf ((('\n' :: (c ++ ['\n'])) ++ delim).drop j) = true := by
  intro j hj hpre
  have hj' : j < c.length + 2 := by simpa using hj
  have hdrop : ((('\n' :: (c ++ ['\n']))) ++ delim).drop j
      = ('\n' :: (c ++ ['\n'])).drop j ++ delim :=
    List.drop_append_of_le_length (by simp; omega)
  rw [hdrop, List.isPrefixOf_iff_prefix] at hpre
  have hulen : (('\n' :: (c ++ ['\n'])).drop j).length = c.length + 2 - j := by
    simp
  by_cases hin : j + 5 ≤ c.length + 2
  · have hplen : delim.length ≤ (('\n' :: (c ++ ['\n'])).drop j).length := by
      rw [show delim.length = 5 from rfl, hulen]; omega
    have hpre2 : delim <+: ('\n' :: (c ++ ['\n'])).drop j :=
      (prefix_append_iff_left hplen).mp hpre
    obtain ⟨t, ht⟩ := hpre2
    have hinf : delim <:+: ('\n' :: (c ++ ['\n'])) :=
      ⟨('\n' :: (c ++ ['\n'])).take j, t, by
        rw [List.append_assoc, ht, List.take_append_drop]⟩
    have hcon := containsSeq_iff_infix.mpr hinf
    have hval : containsSeq delim ('\n' :: (c ++ ['\n'])) = false := by
      unfold validContent at hc
      simp only [Bool.and_eq_true, Bool.not_eq_true'] at hc
      exact hc.2
    rw [hcon] at hval
    exact Bool.noConfusion hval
  · have htake := List.prefix_iff_eq_take.mp hpre
    rw [show delim.length = 5 from rfl, List.take_append_eq_append_take, hulen,
      List.take_of_length_le (by rw [hulen]; omega)] at htake
    have hu : delim.take (c.length + 2 - j) = ('\n' :: (c ++ ['\n'])).drop j := by
      have h2 := congrArg (List.take (c.length + 2 - j)) htake
      rw [List.take_append_eq_append_take,
        List.take_of_length_le (le_of_eq hulen), hulen, Nat.sub_self,
        List.take_zero, List.append_nil] at h2
      exact h2
    have htail : delim.drop (c.length + 2 - j) = delim.take (5 - (c.length + 2 - j)) := by
      have h2 := congrArg (List.drop (c.length + 2 - j)) htake
      rw [List.drop_append_eq_append_drop,
        List.drop_of_length_le (le_of_eq hulen), hulen, Nat.sub_self,
        List.drop_zero, List.nil_append] at h2
      exact h2
    obtain ⟨k, hk⟩ : ∃ k, c.length + 2 - j = k := ⟨_, rfl⟩
    rw [hk] at hu htail
    have hk1 : 1 ≤ k := by omega
    have hk4 : k ≤ 4 := by omega
    interval_cases k
    · exact absurd htail (by decide)
    · exact absurd htail (by decide)
    · exact absurd htail (by decide)
    · have hm2 : ('\n' :: (c ++ ['\n']))
          = ('\n' :: (c ++ ['\n'])).take j ++ delim.take 4 := by
        rw [hu]; exact (List.take_append_drop j _).symm
      have h1 : ('\n' :: (c ++ ['\n'])).reverse.head? = some '\n' := by
        simp
      have h2 : ('\n' :: (c ++ ['\n'])).reverse.head? = some '-' := by
        rw [hm2, List.reverse_append,
          show (delim.take 4).reverse = '-' :: '-' :: '-' :: ['\n'] from by decide]
        rfl
      rw [h1] at h2
      injection h2 with h2
      exact absurd h2 (by decide)

theorem noEarly_append_of_no_newline {hl rest : List Char}
    (hnl : ∀ x ∈ hl, ¬ x = '\n')
    (htail : ∀ j, j < rest.length → ¬ delim.isPrefixOf ((rest ++ delim).drop j) = true) :
    noEarly (hl ++ rest) := by
  induction hl with
  | nil =>
    intro i hi hpre
    rw [List.nil_append] at hi hpre
    exact htail i hi hpre
  | cons x hl' ih =>
    intro i hi hpre
    match i with
    | 0 =>
      rw [List.drop_zero, List.cons_append, List.cons_append,
        List.isPrefixOf_iff_prefix] at hpre
      have hpre' : ('\n' :: str ("---\n")) <+: x :: ((hl' ++ rest) ++ delim) := hpre
      have hx := (List.cons_prefix_cons.mp hpre').1
      exact hnl x (List.mem_cons_self x _) hx.symm
    | i + 1 =>
      rw [List.cons_append, List.cons_append, List.drop_succ_cons] at hpre
      have hi' : i < (hl' ++ rest).length := by
        simp at hi ⊢; omega
      exact ih (fun y hy => hnl y (List.mem_cons_of_mem x hy)) i hi' hpre

theorem noEarly_encoded {ts ty c : List Char} (hts : validTimestamp ts = true)
    (hty : validType ty = true) (hc : validContent c = true) :
    noEarly (headerLine ts ty ++ '\n' :: '\n' :: (c ++ ['\n'])) := by
  apply noEarly_append_of_no_newline (headerLine_no_newline hts hty)
  intro j hj hpre
  match j with
  | 0 =>
    rw [List.drop_zero, List.cons_append, List.isPrefixOf_iff_prefix] at hpre
    have hpre' : ('\n' :: str ("---\n")) <+: '\n' :: ((('\n' :: (c ++ ['\n']))) ++ delim) := hpre
    have h2 := (List.cons_prefix_cons.mp hpre').2
    have h2' : ('-' :: str ("--\n")) <+: '\n' :: ((c ++ ['\n']) ++ delim) := h2
    have hx := (List.cons_prefix_cons.mp h2').1
    exact absurd hx (by decide)
  | j + 1 =>
    rw [List.cons_append, List.drop_succ_cons] at hpre
    have hj' : j < ('\n' :: (c ++ ['\n'])).length := by
      simp at hj ⊢; omega
    exact no_delim_in_tail hc j hj' hpre

theorem headNonSpace_append {l r : List Char} (h : headNonSpace l = true) :
    headNonSpace (l ++ r) = true := by
  cases l with
  | nil => exact absurd h (by simp [headNonSpace])
  | cons c l' => exact h

theorem dropWhile_eq_self_of_headNonSpace {s : List Char}
    (h : headNonSpace s = true) : s.dropWhile isPySpace = s := by
  cases s with
  | nil => rfl
  | cons c s' =>
    rw [List.dropWhile_cons, if_neg]
    rw [headNonSpace] at h
    simp only [Bool.not_eq_true'] at h
    simp [h]

theorem pyStrip_encoded {ts ty c : List Char} (hc1 : headNonSpace c = true)
    (hc2 : headNonSpace c.reverse = true) :
    pyStrip (headerLine ts ty ++ '\n' :: '\n' :: (c ++ ['\n']))
      = headerLine ts ty ++ '\n' :: '\n' :: c := by
  rw [pyStrip, dropWhile_eq_self_of_headNonSpace
    (show headNonSpace (headerLine ts ty ++ '\n' :: '\n' :: (c ++ ['\n'])) = true from rfl)]
  have hrev : (headerLine ts ty ++ '\n' :: '\n' :: (c ++ ['\n'])).reverse
      = '\n' :: (c.reverse ++ ('\n' :: '\n' :: (headerLine ts ty).reverse)) := by
    simp
  rw [hrev, List.dropWhile_cons, if_pos (show isPySpace '\n' = true from rfl),
    dropWhile_eq_self_of_headNonSpace (headNonSpace_append hc2)]
  simp

theorem pyStrip_two_newlines {c : List Char} (hc1 : headNonSpace c = true)
    (hc2 : headNonSpace c.reverse = true) :
    pyStrip ('\n' :: '\n' :: c) = c := by
  rw [pyStrip, List.dropWhile_cons, if_pos (show isPySpace '\n' = true from rfl),
    List.dropWhile_cons, if_pos (show isPySpace '\n' = true from rfl),
    dropWhile_eq_self_of_headNonSpace hc1,
    dropWhile_eq_self_of_headNonSpace hc2, List.reverse_reverse]

theorem takeWhile_word {ty r : List Char} (h : ty.all isWordChar = true) :
    (ty ++ '\n' :: r).takeWhile isWordChar = ty := by
  induction ty with
  | nil =>
    rw [List.nil_append, List.takeWhile_cons,
      if_neg (by simp [isWordChar])]
  | cons x ty' ih =>
    rw [List.all_cons, Bool.and_eq_true] at h
    rw [List.cons_append, List.takeWhile_cons, if_pos h.1, ih h.2]

theorem dropWhile_word {ty r : List Char} (h : ty.all isWordChar = true) :
    (ty ++ '\n' :: r).dropWhile isWordChar = '\n' :: r := by
  induction ty with
  | nil =>
    rw [List.nil_append, List.dropWhile_cons,
      if_neg (by simp [isWordChar])]
  | cons x ty' ih =>
    rw [List.all_cons, Bool.and_eq_true] at h
    rw [List.cons_append, List.dropWhile_cons, if_pos h.1, ih h.2]

theorem tryFinish_encoded {ty r : List Char} (hty : validType ty = true) :
    tryFinish (' ' :: (ty ++ '\n' :: r)) = some (ty, '\n' :: r) := by
  rw [validType, Bool.and_eq_true] at hty
  obtain ⟨hne, hall⟩ := hty
  cases ty with
  | nil => simp at hne
  | cons w ty' =>
    rw [List.all_cons, Bool.and_eq_true] at hall
    show tryFinish (' ' :: w :: (ty' ++ '\n' :: r)) = _
    rw [tryFinish, if_pos hall.1]
    rw [show w :: (ty' ++ '\n' :: r) = (w :: ty') ++ '\n' :: r from rfl]
    rw [takeWhile_word (by simp [hall.1, hall.2]), dropWhile_word (by simp [hall.1, hall.2])]

theorem scanHeaderTail_encoded {ts ty r : List Char}
    (hts : validTimestamp ts = true) (hty : validType ty = true) :
    scanHeaderTail (ts ++ ']' :: ' ' :: (ty ++ '\n' :: r)) = some (ts, ty, '\n' :: r) := by
  induction ts with
  | nil =>
    rw [List.nil_append, scanHeaderTail, if_neg (by decide), if_pos rfl,
      tryFinish_encoded hty]
  | cons x ts' ih =>
    rw [validTimestamp, List.all_cons, Bool.and_eq_true] at hts
    obtain ⟨hx, hts'⟩ := hts
    simp only [Bool.and_eq_true, Bool.not_eq_true', beq_eq_false_iff_ne, ne_eq] at hx
    rw [List.cons_append, scanHeaderTail, if_neg hx.2, if_neg hx.1,
      ih (by rw [validTimestamp]; exact hts')]
    rfl

theorem parseHeader_encoded {ts ty r : List Char}
    (hts : validTimestamp ts = true) (hty : validType ty = true) :
    parseHeader (headerLine ts ty ++ '\n' :: '\n' :: r)
      = some (ts, ty, '\n' :: '\n' :: r) := by
  have hshape : headerLine ts ty ++ '\n' :: '\n' :: r
      = '#' :: '#' :: ' ' :: '[' :: (ts ++ ']' :: ' ' :: (ty ++ '\n' :: '\n' :: r)) := by
    simp [headerLine, show str ("## [") = '#' :: '#' :: ' ' :: ['['] from rfl,
      show str ("] ") = ']' :: [' '] from rfl]
  rw [hshape]
  rw [show parseHeader
        ('#' :: '#' :: ' ' :: '[' :: (ts ++ ']' :: ' ' :: (ty ++ '\n' :: '\n' :: r)))
      = scanHeaderTail (ts ++ ']' :: ' ' :: (ty ++ '\n' :: '\n' :: r)) from rfl]
  exact scanHeaderTail_encoded hts hty

theorem parseChunk_encoded {ts ty c : List Char} (hts : validTimestamp ts = true)
    (hty : validType ty = true) (hc : validContent c = true) :
    parseChunk (headerLine ts ty ++ '\n' :: '\n' :: (c ++ ['\n'])) = some (ts, ty, c) := by
  have hc' := hc
  unfold validContent at hc'
  simp only [Bool.and_eq_true] at hc'
  obtain ⟨⟨hc1, hc2⟩, -⟩ := hc'
  unfold parseChunk
  rw [pyStrip_encoded hc1 hc2, parseHeader_encoded hts hty]
  show some (ts, ty, pyStrip ('\n' :: '\n' :: c)) = some (ts, ty, c)
  rw [pyStrip_two_newlines hc1 hc2]

/-- C3: round-trip of the entry codec — for all valid (content, type,
timestamp), decoding the encoding of the triple yields exactly one entry
whose content, type and timestamp string equal the inputs. -/
theorem C3_codec_roundtrip {content ty ts : List Char}
    (hts : validTimestamp ts = true) (hty : validType ty = true)
    (hcontent : validContent content = true) :
    parse_entries_from_markdown (format_entry content ty ts) = [(ts, ty, content)] := by
  have hfmt : format_entry content ty ts
      = (headerLine ts ty ++ '\n' :: '\n' :: (content ++ ['\n'])) ++ delim := by
    simp [format_entry, headerLine,
      show str ("## [") = '#' :: '#' :: ' ' :: ['['] from rfl,
      show str ("] ") = ']' :: [' '] from rfl,
      show str ("\n\n") = '\n' :: ['\n'] from rfl,
      show str ("\n\n---\n") = '\n' :: '\n' :: '-' :: '-' :: '-' :: ['\n'] from rfl,
      show delim = '\n' :: '-' :: '-' :: '-' :: ['\n'] from rfl]
  rw [hfmt, parse_entries_from_markdown,
    splitDelim_append_delim (noEarly_encoded hts hty hcontent)]
  have hnil : parseChunk [] = none := rfl
  simp [List.filterMap_cons, parseChunk_encoded hts hty hcontent, hnil]

/-- Witness for C3 at the concrete entry of the repository's format test. -/
theorem C3_codec_roundtrip_witness :
    validTimestamp (str ("2025-10-06 14:30:45")) = true
      ∧ validType (str ("insight")) = true
      ∧ validContent (str ("Test content")) = true
      ∧ parse_entries_from_markdown
          (format_entry (str ("Test content")) (str ("insight"))
            (str ("2025-10-06 14:30:45")))
        = [(str ("2025-10-06 14:30:45"), str ("insight"), str ("Test content"))] :=
  ⟨by decide, by decide, by decide,
    C3_codec_roundtrip (by decide) (by decide) (by decide)⟩

/-- C1 counterexample: a Write whose pull fails returns only the warning; the
journal is left unchanged (the entry the claim says is still appended is
missing) and the append step is never reached. -/
theorem C1_counterexample :
    (handle_journal_write
        ⟨false, str ("not a git repository"), true, [], true, []⟩
        [] (str ("hello")) (str ("insight")) (str ("2025-10-06 14:30:45"))
        (str ("journal.md"))).journal
      ≠ append_entry [] (str ("hello")) (str ("insight")) (str ("2025-10-06 14:30:45"))
    ∧ (handle_journal_write
        ⟨false, str ("not a git repository"), true, [], true, []⟩
        [] (str ("hello")) (str ("insight")) (str ("2025-10-06 14:30:45"))
        (str ("journal.md"))).steps
      = [WStep.pull] := by
  constructor
  · decide
  · rfl

/-- C1 (amended): on a Write whose pull fails, the handler aborts with a
warning: the entry is not appended (the journal is unchanged), the pull is
the only step executed, and the reply is the warning text. -/
theorem C1_amended_pull_failure_aborts_append {env : WriteEnv}
    {journal0 content entry_type ts path : List Char} (h : env.pullOk = false) :
    (handle_journal_write env journal0 content entry_type ts path).journal = journal0
    ∧ (handle_journal_write env journal0 content entry_type ts path).steps = [WStep.pull]
    ∧ (handle_journal_write env journal0 content entry_type ts path).reply
        = str ("Warning: ") ++ env.pullMsg := by
  rw [handle_journal_write, if_pos h]
  exact ⟨rfl, rfl, rfl⟩

/-- Witness for the amended C1 at a concrete failing pull. -/
theorem C1_amended_witness :
    (handle_journal_write ⟨false, str ("m"), true, [], true, []⟩
        (str ("old")) (str ("c")) (str ("t")) (str ("s")) (str ("p"))).journal = str ("old")
    ∧ (handle_journal_write ⟨false, str ("m"), true, [], true, []⟩
        (str ("old")) (str ("c")) (str ("t")) (str ("s")) (str ("p"))).steps = [WStep.pull]
    ∧ (handle_journal_write ⟨false, str ("m"), true, [], true, []⟩
        (str ("old")) (str ("c")) (str ("t")) (str ("s")) (str ("p"))).reply
        = str ("Warning: ") ++ str ("m") :=
  C1_amended_pull_failure_aborts_append rfl

/-- C2 counterexample: even on a fully successful Write the executed steps
are not pull, append, index update, commit, push — there is no incremental
index-update step. -/
theorem C2_counterexample :
    (handle_journal_write ⟨true, [], true, [], true, []⟩
        [] (str ("c")) (str ("t")) (str ("s")) (str ("p"))).steps
      ≠ [WStep.pull, WStep.append, WStep.indexUpdate, WStep.commit, WStep.push] := by
  decide

/-- C2 (amended): within a single process the Write steps are pull, append,
commit, push in that order, stopping after the first failed step (which is
still attempted), and no incremental index-update step is ever executed. -/
theorem C2_amended_write_steps (env : WriteEnv)
    (journal0 content entry_type ts path : List Char) :
    (handle_journal_write env journal0 content entry_type ts path).steps
      = (if env.pullOk = false then [WStep.pull]
         else if env.commitOk = false then [WStep.pull, WStep.append, WStep.commit]
         else [WStep.pull, WStep.append, WStep.commit, WStep.push])
    ∧ WStep.indexUpdate ∉ (handle_journal_write env journal0 content entry_type ts path).steps := by
  rw [handle_journal_write]
  by_cases hp : env.pullOk = false
  · simp [hp]
  · by_cases hcm : env.commitOk = false
    · simp [hp, hcm]
    · by_cases hps : env.pushOk = false
      · simp [hp, hcm, hps]
      · simp [hp, hcm, hps]

/-- C4: when the pull succeeded and the commit or the push fails, the
appended entry stays in the journal (no rollback) and the reply is the
partial-success message naming the failed step. -/
theorem C4_failure_after_append_keeps_entry {env : WriteEnv}
    {journal0 content entry_type ts path : List Char}
    (hpull : env.pullOk = true)
    (hfail : env.commitOk = false ∨ env.pushOk = false) :
    (handle_journal_write env journal0 content entry_type ts path).journal
      = append_entry journal0 content entry_type ts
    ∧ (env.commitOk = false →
        (handle_journal_write env journal0 content entry_type ts path).reply
          = str ("Entry written but commit failed: ") ++ env.commitMsg)
    ∧ (env.commitOk = true → env.pushOk = false →
        (handle_journal_write env journal0 content entry_type ts path).reply
          = str ("Entry written and committed, but push failed: ") ++ env.pushMsg) := by
  rw [handle_journal_write, if_neg (by rw [hpull]; simp)]
  by_cases hcm : env.commitOk = false
  · simp [hcm]
  · have hcm' : env.commitOk = true := by
      revert hcm; cases env.commitOk <;> simp
    rcases hfail with h | h
    · exact absurd h hcm
    · simp [hcm', h]

/-- Witness for C4 at a concrete failing commit. -/
theorem C4_witness :
    (handle_journal_write ⟨true, [], false, str ("boom"), true, []⟩
        (str ("old")) (str ("c")) (str ("t")) (str ("s")) (str ("p"))).journal
      = append_entry (str ("old")) (str ("c")) (str ("t")) (str ("s"))
    ∧ (false = false →
        (handle_journal_write ⟨true, [], false, str ("boom"), true, []⟩
            (str ("old")) (str ("c")) (str ("t")) (str ("s")) (str ("p"))).reply
          = str ("Entry written but commit failed: ") ++ str ("boom"))
    ∧ (false = true → true = false →
        (handle_journal_write ⟨true, [], false, str ("boom"), true, []⟩
            (str ("old")) (str ("c")) (str ("t")) (str ("s")) (str ("p"))).reply
          = str ("Entry written and committed, but push failed: ") ++ []) :=
  C4_failure_after_append_keeps_entry rfl (Or.inl rfl)

/-- C5: the staleness test — an absent index is stale; an index present with
an absent journal is not stale; with both present the index is stale iff the
journal's last-modified time strictly exceeds the index's. -/
theorem C5_staleness {journalMtime indexMtime : Option Nat} :
    (indexMtime = none → is_index_stale journalMtime indexMtime = true)
    ∧ (∀ im, indexMtime = some im → journalMtime = none →
        is_index_stale journalMtime indexMtime = false)
    ∧ (∀ jm im, journalMtime = some jm → indexMtime = some im →
        (is_index_stale journalMtime indexMtime = true ↔ im < jm)) := by
  refine ⟨?_, ?_, ?_⟩
  · intro h; subst h; rfl
  · intro im h1 h2; subst h1; subst h2; rfl
  · intro jm im h1 h2; subst h1; subst h2
    simp [is_index_stale]

/-- Witness for C5 at concrete modification times. -/
theorem C5_staleness_witness :
    (is_index_stale (some 5) none = true)
    ∧ (is_index_stale none (some 3) = false)
    ∧ (is_index_stale (some 5) (some 3) = true ↔ 3 < 5) :=
  ⟨C5_staleness.1 rfl, C5_staleness.2.1 3 rfl rfl, C5_staleness.2.2 5 3 rfl rfl⟩

/-- C6 counterexample: the query `implementing` and an entry containing the
word `implement` have a common stem (the spec's stemming relation holds), yet
the server's search returns nothing: matching is not stemmed. -/
theorem C6_counterexample :
    specStemMatch (str ("implementing"))
        (str ("## [2025-10-06 14:30:00] insight\n\nWe implement features\n\n---")) = true
    ∧ searchResults (str ("implementing")) none
        [str ("## [2025-10-06 14:30:00] insight\n\nWe implement features\n\n---\n")]
      = [] := by
  constructor
  · decide
  · decide

/-- C6 (amended): the server's matching is case-insensitive substring
matching of the query pattern over the raw entry text (no stemming): the
query matches an entry exactly when the case-folded query occurs contiguously
in the case-folded entry. -/
theorem C6_amended_match_is_ci_substring (q e : List Char) :
    patternSearch q e = true ↔ lowerStr q <:+: lowerStr e := by
  rw [patternSearch]
  exact containsSeq_iff_infix

theorem mem_searchResults {q e : List Char} {tyF : Option (List Char)}
    {contents : List (List Char)} :
    e ∈ searchResults q tyF contents
      ↔ ∃ content, content ∈ contents ∧ content.isEmpty = false
          ∧ ∃ raw, raw ∈ splitDelim content ∧ pyStrip raw = e
              ∧ (pyStrip raw).isEmpty = false ∧ entryPasses q tyF raw = true := by
  rw [searchResults, List.mem_flatMap]
  constructor
  · rintro ⟨content, hmem, he⟩
    rw [journalResults] at he
    by_cases hemp : content.isEmpty = true
    · rw [if_pos hemp] at he
      exact absurd he (List.not_mem_nil e)
    · rw [if_neg hemp] at he
      rw [List.mem_map] at he
      obtain ⟨raw, hraw, hstrip⟩ := he
      rw [List.mem_filter, Bool.and_eq_true, Bool.not_eq_true'] at hraw
      exact ⟨content, hmem, (by revert hemp; cases content.isEmpty <;> simp),
        raw, hraw.1, hstrip, hraw.2.1, hraw.2.2⟩
  · rintro ⟨content, hmem, hemp, raw, hraw, hstrip, hne, hpass⟩
    refine ⟨content, hmem, ?_⟩
    rw [journalResults, if_neg (by rw [hemp]; simp)]
    rw [List.mem_map]
    refine ⟨raw, List.mem_filter.mpr ⟨hraw, ?_⟩, hstrip⟩
    rw [Bool.and_eq_true, Bool.not_eq_true']
    exact ⟨hne, hpass⟩

/-- C7: with a type filter, an entry is in the search results iff it comes
from a searched journal's delimiter-split, is non-blank, matches the text
query, AND its header's type token equals the given type exactly — the
filter is conjunctive with the text match. -/
theorem C7_type_filter_conjunctive (q t e : List Char) (contents : List (List Char)) :
    e ∈ searchResults q (some t) contents
      ↔ ∃ content, content ∈ contents ∧ content.isEmpty = false
          ∧ ∃ raw, raw ∈ splitDelim content ∧ pyStrip raw = e
              ∧ (pyStrip raw).isEmpty = false
              ∧ patternSearch q raw = true
              ∧ extractTypeToken raw = some t := by
  rw [mem_searchResults]
  constructor
  · rintro ⟨content, h1, h2, raw, h3, h4, h5, hpass⟩
    rw [entryPasses, Bool.and_eq_true] at hpass
    obtain ⟨hq, hty⟩ := hpass
    rw [typeFilterPasses] at hty
    refine ⟨content, h1, h2, raw, h3, h4, h5, hq, ?_⟩
    cases hext : extractTypeToken raw with
    | none => rw [hext] at hty; exact absurd hty (by simp)
    | some w =>
      rw [hext] at hty
      simp only [beq_iff_eq] at hty
      rw [← hty]
  · rintro ⟨content, h1, h2, raw, h3, h4, h5, hq, hext⟩
    refine ⟨content, h1, h2, raw, h3, h4, h5, ?_⟩
    rw [entryPasses, Bool.and_eq_true]
    refine ⟨hq, ?_⟩
    rw [typeFilterPasses, hext]
    simp

theorem pyJoin_eq_intercalate (sep : List Char) (l : List (List Char)) :
    pyJoin sep l = List.intercalate sep l := by
  induction l with
  | nil => rfl
  | cons x xs ih =>
    cases xs with
    | nil => simp [pyJoin, List.intercalate]
    | cons y ys =>
      rw [pyJoin, ih]
      rw [List.intercalate, List.intercalate, List.intersperse_cons₂,
        List.flatten_cons, List.flatten_cons, List.append_assoc]

/-- C8: the search reply is the explicit no-match message exactly for an
empty result set, and otherwise the matched entry blocks joined by the
blank-line-and-delimiter separator. -/
theorem C8_search_reply_shape (q : List Char) (tyF : Option (List Char))
    (contents : List (List Char)) :
    searchOutput q tyF contents
      = if searchResults q tyF contents = [] then noMatchMsg
        else List.intercalate sepJoin (searchResults q tyF contents) := by
  rw [searchOutput]
  by_cases h : searchResults q tyF contents = []
  · rw [if_pos (by rw [h]; rfl), if_pos h]
  · rw [if_neg (by simpa [List.isEmpty_iff] using h), if_neg h,
      pyJoin_eq_intercalate]

/-- C9: the outcome of the pull step is discarded by Search — the entire
observable outcome (state afterwards and reply) is the same whatever the
pull returned; the search proceeds over the local journal contents. -/
theorem C9_search_ignores_pull_outcome (p1 p2 : Bool × List Char)
    (env : SearchEnv) (query : List Char) (scope : SScope)
    (tyF : Option (List Char)) :
    handle_journal_search p1 env query scope tyF
      = handle_journal_search p2 env query scope tyF := rfl

theorem generate_project_id_length (r : Nat) :
    (generate_project_id r).length = 8 := by
  simp [generate_project_id]

theorem generate_project_id_lowercase_hex (r : Nat) :
    ∀ x ∈ generate_project_id r, x ∈ str ("0123456789abcdef") := by
  intro x hx
  rw [generate_project_id, List.mem_map] at hx
  obtain ⟨i, hi, hx⟩ := hx
  subst hx
  have h16 : r / 16 ^ i % 16 < 16 := Nat.mod_lt _ (by decide)
  obtain ⟨n, hn⟩ : ∃ n, r / 16 ^ i % 16 = n := ⟨_, rfl⟩
  rw [hn] at h16 ⊢
  interval_cases n <;> decide

/-- C10: a Search with scope `project` or `both` in a working directory with
no project identity sidecar creates the sidecar as a side effect — a fresh
8-character lowercase-hex id is generated and persisted — while no journal
is modified. -/
theorem C10_search_creates_sidecar {pullOutcome : Bool × List Char}
    {env : SearchEnv} {query : List Char} {scope : SScope}
    {tyF : Option (List Char)}
    (hscope : scope = SScope.project ∨ scope = SScope.both)
    (hsc : env.sidecar = none) :
    (handle_journal_search pullOutcome env query scope tyF).sidecar
        = some (generate_project_id env.freshId)
    ∧ (handle_journal_search pullOutcome env query scope tyF).globalJournal
        = env.globalJournal
    ∧ (handle_journal_search pullOutcome env query scope tyF).projectJournal
        = env.projectJournal
    ∧ (generate_project_id env.freshId).length = 8
    ∧ ∀ x ∈ generate_project_id env.freshId, x ∈ str ("0123456789abcdef") := by
  have hproj : scopeHasProject scope = true := by
    rcases hscope with h | h <;> rw [h] <;> rfl
  refine ⟨?_, rfl, rfl, generate_project_id_length env.freshId,
    generate_project_id_lowercase_hex env.freshId⟩
  rw [handle_journal_search]
  simp only [hproj, if_true]
  rw [hsc]
  rfl

/-- Witness for C10 at a concrete environment with no sidecar. -/
theorem C10_witness :
    (handle_journal_search (true, []) ⟨str ("g"), str ("p"), none, 305419896⟩
        (str ("q")) SScope.both none).sidecar
      = some (generate_project_id 305419896)
    ∧ (handle_journal_search (true, []) ⟨str ("g"), str ("p"), none, 305419896⟩
        (str ("q")) SScope.both none).globalJournal = str ("g")
    ∧ (handle_journal_search (true, []) ⟨str ("g"), str ("p"), none, 305419896⟩
        (str ("q")) SScope.both none).projectJournal = str ("p")
    ∧ (generate_project_id 305419896).length = 8
    ∧ ∀ x ∈ generate_project_id 305419896, x ∈ str ("0123456789abcdef") :=
  C10_search_creates_sidecar (Or.inr rfl) rfl
